import Mathlib

/-!
Shallow embedding of the ReceiptMe backend (`server.js`) aggregation and
comparison logic, together with the handler-level behaviour the claims are
about.

Modelling conventions:
* JavaScript `Number` values stored as prices are modelled as rationals (`ℚ`);
  the special values `NaN` and the infinities, which arise only from the
  division in the percentage computation, are modelled explicitly by `JsNum`.
* A JavaScript object used as a string-keyed accumulator is modelled as an
  association list `List (String × _)` holding its keys in insertion order
  with no duplicated key; `obj[k] += v` becomes an update of the (single)
  entry holding `k`, and a fresh key is appended at the end.
* A JavaScript `Set` of strings is modelled as a duplicate-free list in
  insertion order (`setAdd`).
* `Math.round` is `fun q => ⌊q + 1/2⌋` on finite values (JavaScript rounds
  half-way cases towards positive infinity).
* Database queries are out of scope: the aggregation functions take the list
  of receipts a query returned.  For the error-handling claim the outcome of
  a query is passed in explicitly as a `StoreOutcome`.
-/

namespace ReceiptMe

/-- Result of a JavaScript floating-point computation: a finite value, an
infinity, or `NaN`.  Only the percentage pipeline can produce non-finite
values here. -/
inductive JsNum where
  | nan : JsNum
  | posInf : JsNum
  | negInf : JsNum
  | fin : ℚ → JsNum
deriving DecidableEq

/-- JavaScript division `a / b` of finite values: `0 / 0` is `NaN` and
`a / 0` for `a ≠ 0` is a signed infinity. -/
def jsDiv (a b : ℚ) : JsNum :=
  if b = 0 then
    if a = 0 then JsNum.nan else if 0 < a then JsNum.posInf else JsNum.negInf
  else JsNum.fin (a / b)

/-- Multiplication by the positive constant 100, as applied to the quotient in
`Math.round((amount / totalSpent) * 100)`.  `NaN` and the infinities are
absorbing. -/
def JsNum.mul100 : JsNum → JsNum
  | nan => nan
  | posInf => posInf
  | negInf => negInf
  | fin q => fin (q * 100)

/-- JavaScript `Math.round` on a finite value: `⌊q + 1/2⌋`. -/
def jsRoundZ (q : ℚ) : ℤ := ⌊q + 1 / 2⌋

/-- JavaScript `Math.round` lifted to `JsNum`: `NaN` and infinities pass
through. -/
def jsRound : JsNum → JsNum
  | JsNum.nan => JsNum.nan
  | JsNum.posInf => JsNum.posInf
  | JsNum.negInf => JsNum.negInf
  | JsNum.fin q => JsNum.fin ((jsRoundZ q : ℤ) : ℚ)

/-- One line item of a stored receipt (`receiptSchema.items`).  `category` is
`none` when the field is absent; `some ""` models an empty string, which is
also falsy in JavaScript. -/
structure Item where
  itemId : String
  name : String
  category : Option String
  price : ℚ
deriving DecidableEq

/-- One stored receipt document (`receiptSchema`).  The `date` field only
participates in store-side range queries and is omitted: every function below
receives the list of receipts a query returned. -/
structure Receipt where
  googleId : String
  receiptId : String
  vendor : String
  items : List Item
deriving DecidableEq

/-- The sentinel category used throughout `server.js`. -/
def defaultCategory : String := "Other (Type Category)"

/-- Transcription of `item.category || 'Other (Type Category)'`: an absent or
empty (falsy) category field falls back to the sentinel. -/
def catOf (it : Item) : String :=
  match it.category with
  | none => defaultCategory
  | some s => if s = "" then defaultCategory else s

/-- Transcription of `obj[cat] = (obj[cat] || 0) + p` (equivalently
`if (!obj[cat]) obj[cat] = 0; obj[cat] += p`, since resetting a falsy numeric
0 to 0 changes nothing) on an insertion-ordered object with distinct keys:
the entry holding `cat` is updated in place, a fresh key is appended. -/
def incr : List (String × ℚ) → String → ℚ → List (String × ℚ)
  | [], cat, p => [(cat, p)]
  | e :: m, cat, p =>
      if e.1 == cat then (e.1, e.2 + p) :: m else e :: incr m cat p

/-- Reading `obj[k]` with a default of 0, as in `obj[k] || 0`. -/
def lookupQ (m : List (String × ℚ)) (k : String) : ℚ :=
  ((m.find? (fun e => e.1 == k)).map (fun e => e.2)).getD 0

/-- Whether the object holds key `k` (`k in obj`). -/
def hasKey (m : List (String × ℚ)) (k : String) : Bool :=
  m.any (fun e => e.1 == k)

/-- The `categoryTotals` accumulation of `GET /spending-summary`
(`server.js` lines 82–92): every item's price is added under its
(defaulted) category. -/
def categoryTotals (receipts : List Receipt) : List (String × ℚ) :=
  receipts.foldl
    (fun m receipt =>
      receipt.items.foldl (fun m item => incr m (catOf item) item.price) m)
    []

/-- The grand total `totalSpent` (`server.js` line 94): sum of the object's
values. -/
def totalSpent (receipts : List Receipt) : ℚ :=
  ((categoryTotals receipts).map (fun e => e.2)).sum

/-- One `{ name, amount, percentage }` entry of the summary response. -/
structure SummaryEntry where
  name : String
  amount : ℚ
  percentage : JsNum
deriving DecidableEq

/-- The summary list built by `GET /spending-summary` (`server.js`
lines 96–100): `percentage = Math.round((amount / totalSpent) * 100)`. -/
def spendingSummary (receipts : List Receipt) : List SummaryEntry :=
  let ct := categoryTotals receipts
  let total := (ct.map (fun e => e.2)).sum
  ct.map (fun e =>
    { name := e.1, amount := e.2,
      percentage := jsRound ((jsDiv e.2 total).mul100) })

/-- The `categoryTotals` accumulation of `GET /api/ai-summary` (`server.js`
lines 305–315), transcribed on its own: the handler repeats the aggregation
code of `GET /spending-summary` verbatim. -/
def aiCategoryTotals (receipts : List Receipt) : List (String × ℚ) :=
  receipts.foldl
    (fun m receipt =>
      receipt.items.foldl (fun m item => incr m (catOf item) item.price) m)
    []

/-- The `receiptSummary` list built by `GET /api/ai-summary` (`server.js`
lines 317–323) before the AI call, transcribed on its own. -/
def aiReceiptSummary (receipts : List Receipt) : List SummaryEntry :=
  let ct := aiCategoryTotals receipts
  let total := (ct.map (fun e => e.2)).sum
  ct.map (fun e =>
    { name := e.1, amount := e.2,
      percentage := jsRound ((jsDiv e.2 total).mul100) })

/-- Adding one element to a JavaScript `Set` modelled as a duplicate-free
insertion-ordered list. -/
def setAdd (s : List String) (u : String) : List String :=
  if u ∈ s then s else s ++ [u]

/-- Transcription of `usersByCategory[cat] = usersByCategory[cat] or new Set;
usersByCategory[cat].add(uid)` (`server.js` lines 202–203) on an
insertion-ordered object with distinct keys. -/
def addUserCat : List (String × List String) → String → String →
    List (String × List String)
  | [], cat, uid => [(cat, [uid])]
  | e :: m, cat, uid =>
      if e.1 == cat then (e.1, setAdd e.2 uid) :: m else e :: addUserCat m cat uid

/-- The `userTotals` accumulation of `GET /comparison-summary` (`server.js`
lines 183–189): `userTotals[cat] = (userTotals[cat] || 0) + item.price`. -/
def userTotalsOf (userReceipts : List Receipt) : List (String × ℚ) :=
  userReceipts.foldl
    (fun m receipt =>
      receipt.items.foldl (fun m item => incr m (catOf item) item.price) m)
    []

/-- The `allTotals` accumulation of `GET /comparison-summary` (`server.js`
lines 196–205).  The single loop updates `allTotals` and `usersByCategory`
independently; the two accumulators are transcribed as two folds over the
same iteration order. -/
def allTotalsOf (allReceipts : List Receipt) : List (String × ℚ) :=
  allReceipts.foldl
    (fun m receipt =>
      receipt.items.foldl (fun m item => incr m (catOf item) item.price) m)
    []

/-- The `usersByCategory` accumulation of `GET /comparison-summary`
(`server.js` lines 196–205): for every item, the receipt's owner is added to
the set of the item's (defaulted) category. -/
def usersByCategoryOf (allReceipts : List Receipt) : List (String × List String) :=
  allReceipts.foldl
    (fun m receipt =>
      receipt.items.foldl
        (fun m item => addUserCat m (catOf item) receipt.googleId) m)
    []

/-- Reading `usersByCategory[cat]` as the (possibly empty) list of owners. -/
def usersAt (m : List (String × List String)) (cat : String) : List String :=
  ((m.find? (fun e => e.1 == cat)).map (fun e => e.2)).getD []

/-- The `averages` object of `GET /comparison-summary` (`server.js`
lines 207–210): `averages[cat] = allTotals[cat] / usersByCategory[cat].size`,
iterating the keys of `allTotals` in insertion order. -/
def averagesOf (allReceipts : List Receipt) : List (String × ℚ) :=
  let allTotals := allTotalsOf allReceipts
  let ubc := usersByCategoryOf allReceipts
  allTotals.map (fun e => (e.1, e.2 / ((usersAt ubc e.1).length : ℚ)))

/-- One `{ category, difference, isHigher }` entry of the comparison
response. -/
structure CompEntry where
  category : String
  difference : ℤ
  isHigher : Bool
deriving DecidableEq

/-- First-occurrence deduplication: `new Set([...xs])` iterated in insertion
order. -/
def insertOrderDedup (l : List String) : List String :=
  l.foldl setAdd []

/-- The comparison list of `GET /comparison-summary` (`server.js`
lines 212–228): for every category of the union of the owner's keys and the
averages' keys (a `Set`, so each category once, in first-occurrence order),
`diff = Math.round(userSpent - avgSpent)` with missing values defaulted to 0,
emitting `{ category, difference: Math.abs(diff), isHigher: diff > 0 }`. -/
def comparisonSummary (userReceipts allReceipts : List Receipt) : List CompEntry :=
  let userTotals := userTotalsOf userReceipts
  let averages := averagesOf allReceipts
  let allCategories :=
    insertOrderDedup (userTotals.map (fun e => e.1) ++ averages.map (fun e => e.1))
  allCategories.map (fun cat =>
    let userSpent := lookupQ userTotals cat
    let avgSpent := lookupQ averages cat
    let diff := jsRoundZ (userSpent - avgSpent)
    { category := cat, difference := |diff|, isHigher := decide (0 < diff) })

/-- The union of owner and population category keys, written from the spec's
"union of keys" wording, to compare with what `comparisonSummary` emits. -/
def unionCategories (userReceipts allReceipts : List Receipt) : List String :=
  insertOrderDedup
    ((userTotalsOf userReceipts).map (fun e => e.1) ++
      (averagesOf allReceipts).map (fun e => e.1))

/-- Owners contributing at least one line item in `cat`, written from the
spec's words: the distinct `googleId`s of the receipts holding an item of
that category, in first-occurrence order. -/
def contributingOwners (rs : List Receipt) (cat : String) : List String :=
  insertOrderDedup
    ((rs.filter (fun r => r.items.any (fun it => catOf it == cat))).map
      (fun r => r.googleId))

/-- One stored user document (`userSchema`), restricted to the fields
`POST /api/users` writes. -/
structure UserDoc where
  googleId : String
  email : String
  firstName : String
  lastName : String
  picture : String
deriving DecidableEq

/-- The request body of `POST /api/users` as destructured by the handler. -/
structure UserReq where
  googleId : String
  email : String
  firstName : String
  lastName : String
  picture : String
deriving DecidableEq

/-- Transcription of `User.findOne({ googleId })` against the users
collection in insertion order: the first document with that key. -/
def findOneUser (db : List UserDoc) (gid : String) : Option UserDoc :=
  db.find? (fun u => u.googleId == gid)

/-- The `POST /api/users` handler (`server.js` lines 250–266): look the owner
up, create and save a document only if absent, respond with the document
either way.  Returns the users collection after the call and the responded
document. -/
def postUsers (db : List UserDoc) (r : UserReq) : List UserDoc × UserDoc :=
  match findOneUser db r.googleId with
  | some u => (db, u)
  | none =>
      let u : UserDoc :=
        { googleId := r.googleId, email := r.email, firstName := r.firstName,
          lastName := r.lastName, picture := r.picture }
      (db ++ [u], u)

/-- One incoming item of `POST /api/expenses`.  `description` and `category`
are `none` when absent (`some ""` models the falsy empty string); `amount`
models the result of `parseFloat(item.amount)`: `some q` for a finite parse
result, `none` when the parse yields `NaN`. -/
structure ManualItem where
  description : Option String
  category : Option String
  amount : Option ℚ
deriving DecidableEq

/-- JavaScript `v || d` on an optional string field. -/
def jsOrStr (v : Option String) (d : String) : String :=
  match v with
  | none => d
  | some s => if s = "" then d else s

/-- The stored item built by `POST /api/expenses` (`server.js` lines
139–144): `name: item.description || 'Unknown'`, `category: item.category ||
'Other (Type Category)'`, `price: parseFloat(item.amount) || 0`.  `genId` is
the randomly generated `itemId`. -/
def storedItem (genId : String) (it : ManualItem) : Item :=
  { itemId := genId,
    name := jsOrStr it.description "Unknown",
    category := some (jsOrStr it.category defaultCategory),
    price := match it.amount with
      | none => 0
      | some q => if q = 0 then 0 else q }

/-- Outcome of an awaited store query inside a handler. -/
inductive StoreOutcome (α : Type) where
  | ok : α → StoreOutcome α
  | failure : StoreOutcome α
deriving DecidableEq

/-- What a request ends as: a response with a status code (and an optional
JSON body), or an exception that escaped the handler uncaught. -/
inductive HandlerOutcome (α : Type) where
  | resp : Nat → Option α → HandlerOutcome α
  | uncaught : HandlerOutcome α
deriving DecidableEq

/-- The control flow of `GET /comparison-summary` (`server.js` lines
171–231) around its two awaited queries.  The handler body has no
`try`/`catch`, so a failing query's rejection escapes the handler. -/
def comparisonSummaryHandler (googleId : Option String)
    (q1 q2 : StoreOutcome (List Receipt)) : HandlerOutcome (List CompEntry) :=
  match googleId with
  | none => HandlerOutcome.resp 400 none
  | some _ =>
      match q1 with
      | StoreOutcome.failure => HandlerOutcome.uncaught
      | StoreOutcome.ok userReceipts =>
          match q2 with
          | StoreOutcome.failure => HandlerOutcome.uncaught
          | StoreOutcome.ok allReceipts =>
              HandlerOutcome.resp 200 (some (comparisonSummary userReceipts allReceipts))

/-- The control flow of `GET /spending-summary` (`server.js` lines 69–107)
around its awaited query: the whole body is inside `try`/`catch`, and the
`catch` answers 500. -/
def spendingSummaryHandler (googleId : Option String)
    (q : StoreOutcome (List Receipt)) : HandlerOutcome (List SummaryEntry) :=
  match googleId with
  | none => HandlerOutcome.resp 400 none
  | some _ =>
      match q with
      | StoreOutcome.failure => HandlerOutcome.resp 500 none
      | StoreOutcome.ok receipts =>
          HandlerOutcome.resp 200 (some (spendingSummary receipts))

/-- The control flow of `POST /upload` (`server.js` lines 52–67): the body is
inside `try`/`catch`; a parse or save failure is answered with 500.  The
parse and save outcomes are passed in explicitly. -/
def uploadHandler (googleId : Option String) (parse : StoreOutcome Receipt)
    (save : StoreOutcome Unit) : HandlerOutcome Receipt :=
  match googleId with
  | none => HandlerOutcome.resp 400 none
  | some _ =>
      match parse with
      | StoreOutcome.failure => HandlerOutcome.resp 500 none
      | StoreOutcome.ok receiptData =>
          match save with
          | StoreOutcome.failure => HandlerOutcome.resp 500 none
          | StoreOutcome.ok _ => HandlerOutcome.resp 200 (some receiptData)

/-- The items of all receipts, in iteration order. -/
def allItems (rs : List Receipt) : List Item :=
  (rs.map (fun r => r.items)).flatten

/-- The rounded integer percentages of the summary, one per category entry. -/
def percentsZ (rs : List Receipt) : List ℤ :=
  (categoryTotals rs).map (fun e => jsRoundZ (e.2 / totalSpent rs * 100))

/-! ### Lemmas about the object accumulator `incr` -/

theorem lookupQ_nil (k : String) : lookupQ [] k = 0 := rfl

theorem lookupQ_cons (e : String × ℚ) (m : List (String × ℚ)) (k : String) :
    lookupQ (e :: m) k = if e.1 = k then e.2 else lookupQ m k := by
  by_cases h : e.1 = k <;> simp [lookupQ, List.find?_cons, h]

theorem lookupQ_incr_self (m : List (String × ℚ)) (c : String) (p : ℚ) :
    lookupQ (incr m c p) c = lookupQ m c + p := by
  induction m with
  | nil => simp [incr, lookupQ_cons, lookupQ_nil]
  | cons e m ih =>
      by_cases h : e.1 = c
      · simp [incr, h, lookupQ_cons]
      · simp [incr, h, lookupQ_cons, ih]

theorem find?_incr_ne (m : List (String × ℚ)) (c : String) (p : ℚ) (k : String)
    (h : c ≠ k) :
    (incr m c p).find? (fun e => e.1 == k) = m.find? (fun e => e.1 == k) := by
  induction m with
  | nil => simp [incr, List.find?_cons, h]
  | cons e m ih =>
      by_cases he : e.1 = c
      · simp [incr, he, List.find?_cons, h]
      · by_cases hk : e.1 = k
        · simp [incr, he, List.find?_cons, hk, Ne.symm h]
        · simp [incr, he, List.find?_cons, hk, ih]

theorem lookupQ_incr_ne (m : List (String × ℚ)) (c : String) (p : ℚ) (k : String)
    (h : c ≠ k) : lookupQ (incr m c p) k = lookupQ m k := by
  simp [lookupQ, find?_incr_ne m c p k h]

theorem sumVal_incr (m : List (String × ℚ)) (c : String) (p : ℚ) :
    ((incr m c p).map (fun e => e.2)).sum = (m.map (fun e => e.2)).sum + p := by
  induction m with
  | nil => simp [incr]
  | cons e m ih =>
      by_cases h : e.1 = c
      · simp [incr, h]; ring
      · simp [incr, h, ih]; ring

theorem hasKey_incr (m : List (String × ℚ)) (c : String) (p : ℚ) (k : String) :
    hasKey (incr m c p) k = (hasKey m k || c == k) := by
  induction m with
  | nil => simp [incr, hasKey, Bool.or_comm]
  | cons e m ih =>
      simp only [hasKey] at ih ⊢
      by_cases h : e.1 = c
      · simp only [incr, h, beq_self_eq_true, if_true, List.any_cons]
        cases hc : (c == k) <;> cases hm : (m.any fun e => e.1 == k) <;>
          simp [hc, hm]
      · have hb : (e.1 == c) = false := by simp [h]
        simp only [incr, hb, Bool.false_eq_true, if_false, List.any_cons, ih]
        cases he : (e.1 == k) <;> cases hc : (c == k) <;>
          cases hm : (m.any fun e => e.1 == k) <;> simp [he, hc, hm]

/-! ### Lemmas about the two-level fold building the category totals -/

theorem lookupQ_foldItems (items : List Item) (m : List (String × ℚ)) (k : String) :
    lookupQ (items.foldl (fun m it => incr m (catOf it) it.price) m) k
      = lookupQ m k
        + ((items.filter (fun it => catOf it == k)).map (fun it => it.price)).sum := by
  induction items generalizing m with
  | nil => simp
  | cons it its ih =>
      by_cases h : catOf it = k
      · simp only [List.foldl_cons, ih, List.filter_cons, h, beq_self_eq_true,
          if_pos, List.map_cons, List.sum_cons]
        rw [← h, lookupQ_incr_self]
        ring
      · have hb : (catOf it == k) = false := by simp [h]
        simp [List.foldl_cons, ih, List.filter_cons, hb,
          lookupQ_incr_ne m (catOf it) it.price k h]

theorem hasKey_foldItems (items : List Item) (m : List (String × ℚ)) (k : String) :
    hasKey (items.foldl (fun m it => incr m (catOf it) it.price) m) k
      = (hasKey m k || items.any (fun it => catOf it == k)) := by
  induction items generalizing m with
  | nil => simp
  | cons it its ih =>
      simp only [List.foldl_cons, ih, hasKey_incr, List.any_cons]
      by_cases h : catOf it = k <;>
        simp [h, Bool.or_comm, Bool.or_assoc, Bool.or_left_comm]

theorem sumVal_foldItems (items : List Item) (m : List (String × ℚ)) :
    (((items.foldl (fun m it => incr m (catOf it) it.price) m)).map
        (fun e => e.2)).sum
      = (m.map (fun e => e.2)).sum + (items.map (fun it => it.price)).sum := by
  induction items generalizing m with
  | nil => simp
  | cons it its ih =>
      simp only [List.foldl_cons, ih, sumVal_incr, List.map_cons, List.sum_cons]
      ring

theorem lookupQ_foldReceipts (rs : List Receipt) (m : List (String × ℚ)) (k : String) :
    lookupQ
        (rs.foldl
          (fun m r => r.items.foldl (fun m it => incr m (catOf it) it.price) m) m) k
      = lookupQ m k
        + (((allItems rs).filter (fun it => catOf it == k)).map
            (fun it => it.price)).sum := by
  induction rs generalizing m with
  | nil => simp [allItems]
  | cons r rs ih =>
      simp only [List.foldl_cons, ih, lookupQ_foldItems, allItems, List.map_cons,
        List.flatten_cons, List.filter_append, List.map_append, List.sum_append]
      ring

theorem hasKey_foldReceipts (rs : List Receipt) (m : List (String × ℚ)) (k : String) :
    hasKey
        (rs.foldl
          (fun m r => r.items.foldl (fun m it => incr m (catOf it) it.price) m) m) k
      = (hasKey m k || (allItems rs).any (fun it => catOf it == k)) := by
  induction rs generalizing m with
  | nil => simp [allItems]
  | cons r rs ih =>
      simp [ih, hasKey_foldItems, allItems, Bool.or_assoc]

theorem sumVal_foldReceipts (rs : List Receipt) (m : List (String × ℚ)) :
    ((rs.foldl
          (fun m r => r.items.foldl (fun m it => incr m (catOf it) it.price) m)
          m).map (fun e => e.2)).sum
      = (m.map (fun e => e.2)).sum + ((allItems rs).map (fun it => it.price)).sum := by
  induction rs generalizing m with
  | nil => simp [allItems]
  | cons r rs ih =>
      simp only [List.foldl_cons, ih, sumVal_foldItems, allItems, List.map_cons,
        List.flatten_cons, List.map_append, List.sum_append]
      ring

theorem lookupQ_categoryTotals (rs : List Receipt) (k : String) :
    lookupQ (categoryTotals rs) k
      = (((allItems rs).filter (fun it => catOf it == k)).map
          (fun it => it.price)).sum := by
  simpa [lookupQ_nil] using lookupQ_foldReceipts rs [] k

theorem hasKey_categoryTotals (rs : List Receipt) (k : String) :
    hasKey (categoryTotals rs) k = (allItems rs).any (fun it => catOf it == k) := by
  simpa [hasKey] using hasKey_foldReceipts rs [] k

theorem sumVal_categoryTotals (rs : List Receipt) :
    ((categoryTotals rs).map (fun e => e.2)).sum
      = ((allItems rs).map (fun it => it.price)).sum := by
  simpa using sumVal_foldReceipts rs []

/-! ### Rounding arithmetic for the percentage claim -/

theorem abs_jsRoundZ_sub_le (x : ℚ) : |((jsRoundZ x : ℤ) : ℚ) - x| ≤ 1 / 2 := by
  have h1 : ((jsRoundZ x : ℤ) : ℚ) ≤ x + 1 / 2 := Int.floor_le _
  have h2 : x + 1 / 2 < ((jsRoundZ x : ℤ) : ℚ) + 1 := Int.lt_floor_add_one _
  rw [abs_le]
  constructor <;> linarith

theorem abs_roundSum_sub_le (l : List ℚ) :
    |(l.map (fun x => ((jsRoundZ x : ℤ) : ℚ))).sum - l.sum| ≤ (l.length : ℚ) / 2 := by
  induction l with
  | nil => simp
  | cons a l ih =>
      simp only [List.map_cons, List.sum_cons, List.length_cons]
      have hsplit :
          ((jsRoundZ a : ℤ) : ℚ) + (l.map (fun x => ((jsRoundZ x : ℤ) : ℚ))).sum
              - (a + l.sum)
            = (((jsRoundZ a : ℤ) : ℚ) - a)
              + ((l.map (fun x => ((jsRoundZ x : ℤ) : ℚ))).sum - l.sum) := by ring
      rw [hsplit]
      refine le_trans (abs_add _ _) ?_
      have h1 := abs_jsRoundZ_sub_le a
      push_cast
      linarith [ih]

theorem intCast_listSum (l : List ℤ) :
    ((l.sum : ℤ) : ℚ) = (l.map (fun z : ℤ => (z : ℚ))).sum := by
  induction l with
  | nil => simp
  | cons a l ih => simp [List.sum_cons, ih]

theorem sum_map_div_mul (m : List (String × ℚ)) (T c : ℚ) :
    (m.map (fun e => e.2 / T * c)).sum = (m.map (fun e => e.2)).sum / T * c := by
  induction m with
  | nil => simp
  | cons e m ih =>
      simp only [List.map_cons, List.sum_cons, ih]
      ring

/-! ### Lemmas about `setAdd`, `addUserCat` and the owner sets -/

theorem mem_setAdd (l : List String) (u x : String) :
    x ∈ setAdd l u ↔ x ∈ l ∨ x = u := by
  by_cases h : u ∈ l
  · simp only [setAdd, if_pos h]
    constructor
    · exact Or.inl
    · rintro (hx | rfl) <;> assumption
  · simp [setAdd, if_neg h]

theorem nodup_setAdd (l : List String) (u : String) (h : l.Nodup) :
    (setAdd l u).Nodup := by
  by_cases hu : u ∈ l
  · simpa [setAdd, hu]
  · simp [setAdd, hu, List.nodup_append, h]

theorem setAdd_idem (l : List String) (u : String) :
    setAdd (setAdd l u) u = setAdd l u := by
  have h : u ∈ (if u ∈ l then l else l ++ [u]) := by
    by_cases hu : u ∈ l <;> simp [hu]
  simp only [setAdd, if_pos h]

theorem mem_foldl_setAdd (l : List String) (acc : List String) (x : String) :
    x ∈ l.foldl setAdd acc ↔ x ∈ acc ∨ x ∈ l := by
  induction l generalizing acc with
  | nil => simp
  | cons a l ih =>
      simp only [List.foldl_cons, ih, mem_setAdd, List.mem_cons]
      tauto

theorem nodup_foldl_setAdd (l : List String) (acc : List String)
    (h : acc.Nodup) : (l.foldl setAdd acc).Nodup := by
  induction l generalizing acc with
  | nil => simpa
  | cons a l ih => exact ih _ (nodup_setAdd _ _ h)

theorem mem_insertOrderDedup (l : List String) (x : String) :
    x ∈ insertOrderDedup l ↔ x ∈ l := by
  simp [insertOrderDedup, mem_foldl_setAdd]

theorem nodup_insertOrderDedup (l : List String) :
    (insertOrderDedup l).Nodup :=
  nodup_foldl_setAdd l [] List.nodup_nil

theorem hasKey_iff_mem_keys (m : List (String × ℚ)) (k : String) :
    hasKey m k = true ↔ k ∈ m.map (fun e => e.1) := by
  simp only [hasKey, List.any_eq_true, List.mem_map, beq_iff_eq]

theorem usersAt_nil (cat : String) : usersAt [] cat = [] := rfl

theorem usersAt_cons_self (e : String × List String)
    (m : List (String × List String)) (cat : String) (h : e.1 = cat) :
    usersAt (e :: m) cat = e.2 := by
  simp [usersAt, List.find?_cons, h]

theorem usersAt_cons_ne (e : String × List String)
    (m : List (String × List String)) (cat : String) (h : e.1 ≠ cat) :
    usersAt (e :: m) cat = usersAt m cat := by
  simp [usersAt, List.find?_cons, h]

theorem usersAt_addUserCat_self (m : List (String × List String))
    (cat uid : String) :
    usersAt (addUserCat m cat uid) cat = setAdd (usersAt m cat) uid := by
  induction m with
  | nil => simp [addUserCat, usersAt, List.find?_cons, setAdd]
  | cons e m ih =>
      by_cases h : e.1 = cat
      · have h1 : addUserCat (e :: m) cat uid = (e.1, setAdd e.2 uid) :: m := by
          simp [addUserCat, h]
        rw [h1, usersAt_cons_self (e.1, setAdd e.2 uid) m cat h,
          usersAt_cons_self e m cat h]
      · have hb : (e.1 == cat) = false := by simp [h]
        have h1 : addUserCat (e :: m) cat uid = e :: addUserCat m cat uid := by
          simp [addUserCat, hb]
        rw [h1, usersAt_cons_ne _ _ _ h, usersAt_cons_ne _ _ _ h, ih]

theorem usersAt_addUserCat_ne (m : List (String × List String))
    (c uid cat : String) (h : c ≠ cat) :
    usersAt (addUserCat m c uid) cat = usersAt m cat := by
  induction m with
  | nil => simp [addUserCat, usersAt, List.find?_cons, h]
  | cons e m ih =>
      by_cases he : e.1 = c
      · have h1 : addUserCat (e :: m) c uid = (e.1, setAdd e.2 uid) :: m := by
          simp [addUserCat, he]
        have hne : e.1 ≠ cat := by rw [he]; exact h
        rw [h1, usersAt_cons_ne (e.1, setAdd e.2 uid) m cat hne,
          usersAt_cons_ne e m cat hne]
      · have hb : (e.1 == c) = false := by simp [he]
        have h1 : addUserCat (e :: m) c uid = e :: addUserCat m c uid := by
          simp [addUserCat, hb]
        by_cases hk : e.1 = cat
        · rw [h1, usersAt_cons_self _ _ _ hk, usersAt_cons_self _ _ _ hk]
        · rw [h1, usersAt_cons_ne _ _ _ hk, usersAt_cons_ne _ _ _ hk, ih]

theorem usersAt_foldItems (items : List Item)
    (m : List (String × List String)) (uid cat : String) :
    usersAt (items.foldl (fun m it => addUserCat m (catOf it) uid) m) cat
      = if items.any (fun it => catOf it == cat) then
          setAdd (usersAt m cat) uid
        else usersAt m cat := by
  induction items generalizing m with
  | nil => simp
  | cons it its ih =>
      by_cases h : catOf it = cat
      · simp only [List.foldl_cons, ih, h, usersAt_addUserCat_self,
          List.any_cons, beq_self_eq_true, Bool.true_or, if_true]
        by_cases hrest : its.any (fun it => catOf it == cat) = true
        · simp [hrest, setAdd_idem]
        · simp [hrest]
      · have hb : (catOf it == cat) = false := by simp [h]
        simp [List.foldl_cons, ih, usersAt_addUserCat_ne m (catOf it) uid cat h,
          List.any_cons, hb]

theorem usersAt_foldReceipts (rs : List Receipt)
    (m : List (String × List String)) (cat : String) :
    usersAt
        (rs.foldl
          (fun m r =>
            r.items.foldl (fun m it => addUserCat m (catOf it) r.googleId) m)
          m) cat
      = ((rs.filter (fun r => r.items.any (fun it => catOf it == cat))).map
          (fun r => r.googleId)).foldl setAdd (usersAt m cat) := by
  induction rs generalizing m with
  | nil => simp
  | cons r rs ih =>
      simp only [List.foldl_cons, ih, usersAt_foldItems, List.filter_cons]
      by_cases h : r.items.any (fun it => catOf it == cat) = true
      · simp [h]
      · simp [h]

theorem usersAt_usersByCategoryOf (rs : List Receipt) (cat : String) :
    usersAt (usersByCategoryOf rs) cat = contributingOwners rs cat := by
  have h := usersAt_foldReceipts rs [] cat
  simpa [usersByCategoryOf, contributingOwners, insertOrderDedup, usersAt_nil]
    using h

/-! ### Lemmas about `averagesOf` -/

theorem find?_map_keyfun (m : List (String × ℚ)) (g : String × ℚ → ℚ)
    (k : String) :
    (m.map (fun e => (e.1, g e))).find? (fun e => e.1 == k)
      = (m.find? (fun e => e.1 == k)).map (fun e => (e.1, g e)) := by
  induction m with
  | nil => simp
  | cons e m ih =>
      by_cases h : e.1 = k
      · simp [List.find?_cons, h]
      · simp [List.find?_cons, h, ih]

theorem lookupQ_averagesOf (rs : List Receipt) (cat : String) :
    lookupQ (averagesOf rs) cat
      = match (allTotalsOf rs).find? (fun e => e.1 == cat) with
        | some e0 => e0.2 / ((usersAt (usersByCategoryOf rs) e0.1).length : ℚ)
        | none => 0 := by
  simp only [averagesOf, lookupQ, find?_map_keyfun]
  cases (allTotalsOf rs).find? (fun e => e.1 == cat) <;> simp

/-! ### Claim C1 -/

/-- A one-item receipt whose single price is 0: the grand total is 0 while a
category is still emitted. -/
def receiptC1 : Receipt :=
  { googleId := "g1", receiptId := "r1", vendor := "v",
    items := [{ itemId := "i1", name := "a", category := some "Food", price := 0 }] }

/-- C1, counterexample to the claim as stated: with one record whose only
price is 0 the grand total is 0, yet the emitted percentage of the emitted
category "Food" is `NaN` (`Math.round(0/0 * 100)`), not 0. -/
theorem spec_C1_counterexample :
    totalSpent [receiptC1] = 0 ∧
    (spendingSummary [receiptC1]).map (fun e => e.percentage) = [JsNum.nan] ∧
    JsNum.nan ≠ JsNum.fin 0 := by
  refine ⟨?_, ?_, by simp⟩
  · simp +decide [totalSpent, categoryTotals, receiptC1, incr, catOf]
  · simp +decide [spendingSummary, categoryTotals, receiptC1, incr, catOf,
      jsDiv, jsRound, jsRoundZ, JsNum.mul100]

/-- C1 (amended): whenever the grand total is non-zero the emitted
percentages are the rounded integers `percentsZ` and their sum is within
half a percentage point per emitted category of 100; when the grand total is
zero, no emitted percentage is a finite number (with no line items the
summary is empty; otherwise each percentage is `NaN` or an infinity), so in
particular none is 0. -/
theorem spec_C1_percentages (rs : List Receipt) :
    (totalSpent rs ≠ 0 →
      (spendingSummary rs).map (fun e => e.percentage)
          = (percentsZ rs).map (fun z : ℤ => JsNum.fin (z : ℚ)) ∧
        2 * |(percentsZ rs).sum - 100| ≤ ((percentsZ rs).length : ℤ)) ∧
    (totalSpent rs = 0 →
      ∀ e ∈ spendingSummary rs, ∀ q : ℚ, e.percentage ≠ JsNum.fin q) := by
  constructor
  · intro hT
    have hT' : ((categoryTotals rs).map (fun e => e.2)).sum ≠ 0 := by
      simpa [totalSpent] using hT
    constructor
    · simp only [spendingSummary, percentsZ, List.map_map]
      refine List.map_congr_left fun e he => ?_
      simp [Function.comp, jsDiv, hT', JsNum.mul100, jsRound, totalSpent]
    · have hQ : |((percentsZ rs).sum : ℚ) - 100|
          ≤ ((percentsZ rs).length : ℚ) / 2 := by
        have hbound :=
          abs_roundSum_sub_le
            ((categoryTotals rs).map (fun e => e.2 / totalSpent rs * 100))
        have hsum :
            ((categoryTotals rs).map (fun e => e.2 / totalSpent rs * 100)).sum
              = 100 := by
          rw [sum_map_div_mul]
          have hTdef : ((categoryTotals rs).map (fun e => e.2)).sum
              = totalSpent rs := rfl
          rw [hTdef, div_self hT]
          ring
        have hcast : ((percentsZ rs).sum : ℚ)
            = (((categoryTotals rs).map (fun e => e.2 / totalSpent rs * 100)).map
                (fun x => ((jsRoundZ x : ℤ) : ℚ))).sum := by
          rw [intCast_listSum]
          simp only [percentsZ, List.map_map]
          rfl
        have hlen :
            ((categoryTotals rs).map (fun e => e.2 / totalSpent rs * 100)).length
              = (percentsZ rs).length := by simp [percentsZ]
        rw [hcast]
        rw [hsum, hlen] at hbound
        exact hbound
      have h3 : 2 * |((percentsZ rs).sum : ℚ) - 100|
          ≤ ((percentsZ rs).length : ℚ) := by linarith [hQ]
      exact_mod_cast h3
  · intro hT e he q
    have hT' : ((categoryTotals rs).map (fun e => e.2)).sum = 0 := by
      simpa [totalSpent] using hT
    simp only [spendingSummary, List.mem_map] at he
    obtain ⟨a, ha, rfl⟩ := he
    by_cases h0 : a.2 = 0
    · simp [jsDiv, hT', h0, jsRound, JsNum.mul100]
    · by_cases h1 : 0 < a.2 <;>
        simp [jsDiv, hT', h0, h1, jsRound, JsNum.mul100]

/-! ### Claims C2, C9, C10 -/

/-- C2: the sum of the per-category `amount` values the Category Aggregator
emits equals the sum of all line-item prices across all supplied records. -/
theorem spec_C2_amount_conservation (rs : List Receipt) :
    ((spendingSummary rs).map (fun e => e.amount)).sum
      = ((allItems rs).map (fun it => it.price)).sum := by
  have hmap : (spendingSummary rs).map (fun e => e.amount)
      = (categoryTotals rs).map (fun e => e.2) := by
    simp only [spendingSummary, List.map_map]
    rfl
  rw [hmap, sumVal_categoryTotals]

/-- C9: the total stored under a category key is exactly the sum of the
prices of the line items whose (defaulted) category is that key; a key is
present iff some line item carries it; and the grouping key of an item is
its category field, falling back to the sentinel exactly when the field is
absent or empty. -/
theorem spec_C9_grouping (rs : List Receipt) (cat : String) :
    lookupQ (categoryTotals rs) cat
        = (((allItems rs).filter (fun it => catOf it == cat)).map
            (fun it => it.price)).sum ∧
    (hasKey (categoryTotals rs) cat = true ↔ cat ∈ (allItems rs).map catOf) ∧
    (∀ it : Item,
      (it.category = none ∨ it.category = some "") → catOf it = defaultCategory) ∧
    (∀ it : Item, ∀ s : String, it.category = some s → s ≠ "" → catOf it = s) := by
  refine ⟨lookupQ_categoryTotals rs cat, ?_, ?_, ?_⟩
  · rw [hasKey_categoryTotals]
    simp [List.any_eq_true, List.mem_map, beq_iff_eq]
  · rintro it (h | h) <;> simp [catOf, h]
  · intro it s hs hne
    simp [catOf, hs, hne]

/-- C10: the category aggregation of `GET /api/ai-summary` and that of
`GET /spending-summary` are the same function: on every collection of
records the two handlers derive identical `{ name, amount, percentage }`
lists. -/
theorem spec_C10_ai_equals_spending (rs : List Receipt) :
    aiReceiptSummary rs = spendingSummary rs := rfl

/-! ### Claim C8 -/

/-- C8: a failing store query inside `GET /comparison-summary` escapes the
handler uncaught — the handler has no `try`/`catch` — while the handlers
that do wrap their body (`GET /spending-summary`, `POST /upload`) translate
the same failure into a 500 response. -/
theorem spec_C8_comparison_uncaught :
    comparisonSummaryHandler (some "g") StoreOutcome.failure
        (StoreOutcome.ok []) = HandlerOutcome.uncaught ∧
    comparisonSummaryHandler (some "g") (StoreOutcome.ok [])
        StoreOutcome.failure = HandlerOutcome.uncaught ∧
    spendingSummaryHandler (some "g") StoreOutcome.failure
        = HandlerOutcome.resp 500 none ∧
    uploadHandler (some "g") StoreOutcome.failure (StoreOutcome.ok ())
        = HandlerOutcome.resp 500 none :=
  ⟨rfl, rfl, rfl, rfl⟩

/-! ### Claim C7 -/

/-- A manual-entry item whose amount parses to the negative number −5. -/
def itemC7 : ManualItem :=
  { description := some "Snack", category := some "Food", amount := some (-5) }

/-- C7, counterexample to the claim as stated: an item whose amount parses
to −5 is stored with price −5, which is negative — the handler never
enforces non-negativity (`parseFloat(item.amount) || 0` only replaces `NaN`
and 0). -/
theorem spec_C7_counterexample :
    (storedItem "i" itemC7).price = -5 ∧ (storedItem "i" itemC7).price < 0 := by
  constructor <;> norm_num [storedItem, itemC7]

/-- C7 (amended): the stored description defaults to "Unknown" when absent,
the stored category defaults to the sentinel when absent, and an invalid
(`NaN`) amount is coerced to price 0; but an amount that parses to a finite
number is stored as-is, so negative input yields a negative stored price and
non-negativity is not enforced. -/
theorem spec_C7_expense_item_fields (g : String) (it : ManualItem) :
    (it.description = none → (storedItem g it).name = "Unknown") ∧
    (it.category = none → (storedItem g it).category = some defaultCategory) ∧
    (it.amount = none → (storedItem g it).price = 0) ∧
    (∀ q : ℚ, it.amount = some q → (storedItem g it).price = q) := by
  refine ⟨fun h => by simp [storedItem, jsOrStr, h],
    fun h => by simp [storedItem, jsOrStr, h],
    fun h => by simp [storedItem, h],
    fun q h => ?_⟩
  by_cases hq : q = 0 <;> simp [storedItem, h, hq]

/-! ### Claim C6 -/

theorem findOneUser_append_of_none (db : List UserDoc) (l : List UserDoc)
    (gid : String) (h : findOneUser db gid = none) :
    findOneUser (db ++ l) gid = findOneUser l gid := by
  simp only [findOneUser] at h ⊢
  rw [List.find?_append, h, Option.none_or]

/-- C6: `POST /api/users` is idempotent per owner identifier: a second call
with the same `googleId` leaves the users collection unchanged and responds
with the same stored profile as the first call, even when the other supplied
fields differ. -/
theorem spec_C6_user_create_idempotent (db : List UserDoc) (r1 r2 : UserReq)
    (h : r1.googleId = r2.googleId) :
    (postUsers (postUsers db r1).1 r2).1 = (postUsers db r1).1 ∧
    (postUsers (postUsers db r1).1 r2).2 = (postUsers db r1).2 := by
  cases hf : findOneUser db r1.googleId with
  | some u =>
      have h2 : findOneUser db r2.googleId = some u := by rw [← h]; exact hf
      simp [postUsers, hf, h2]
  | none =>
      have h2 : findOneUser db r2.googleId = none := by rw [← h]; exact hf
      simp only [postUsers, hf]
      rw [findOneUser_append_of_none db _ _ h2]
      simp [findOneUser, List.find?_cons, h]

/-- C6 witness: concrete requests sharing `googleId` "g" but differing in
every other field, against an empty collection. -/
theorem spec_C6_user_create_idempotent_witness :
    (postUsers (postUsers [] (UserReq.mk "g" "e1" "f1" "l1" "p1")).1
        (UserReq.mk "g" "e2" "f2" "l2" "p2")).1
      = (postUsers [] (UserReq.mk "g" "e1" "f1" "l1" "p1")).1 ∧
    (postUsers (postUsers [] (UserReq.mk "g" "e1" "f1" "l1" "p1")).1
        (UserReq.mk "g" "e2" "f2" "l2" "p2")).2
      = (postUsers [] (UserReq.mk "g" "e1" "f1" "l1" "p1")).2 :=
  spec_C6_user_create_idempotent [] (UserReq.mk "g" "e1" "f1" "l1" "p1")
    (UserReq.mk "g" "e2" "f2" "l2" "p2") rfl

/-! ### Claims C3, C4, C5 -/

theorem jsRoundZ_pos_iff (d : ℚ) : 0 < jsRoundZ d ↔ 1 / 2 ≤ d := by
  rw [jsRoundZ]
  constructor
  · intro h
    have h1 : (1 : ℤ) ≤ ⌊d + 1 / 2⌋ := h
    have h2 : ((1 : ℤ) : ℚ) ≤ d + 1 / 2 := Int.le_floor.1 h1
    push_cast at h2
    linarith
  · intro h
    have h2 : ((1 : ℤ) : ℚ) ≤ d + 1 / 2 := by push_cast; linarith
    have h1 := Int.le_floor.2 h2
    omega

theorem jsRoundZ_zero : jsRoundZ 0 = 0 := by
  rw [jsRoundZ]
  norm_num

theorem lookupQ_averagesOf_some (rs : List Receipt) (cat : String)
    (e0 : String × ℚ)
    (hfind : (allTotalsOf rs).find? (fun e => e.1 == cat) = some e0) :
    lookupQ (averagesOf rs) cat
      = e0.2 / ((usersAt (usersByCategoryOf rs) e0.1).length : ℚ) := by
  rw [lookupQ_averagesOf, hfind]

theorem lookupQ_averagesOf_none (rs : List Receipt) (cat : String)
    (hfind : (allTotalsOf rs).find? (fun e => e.1 == cat) = none) :
    lookupQ (averagesOf rs) cat = 0 := by
  rw [lookupQ_averagesOf, hfind]

theorem find?_foldItems_ne (items : List Item) (m : List (String × ℚ))
    (cat : String) (h : ∀ it ∈ items, catOf it ≠ cat) :
    (items.foldl (fun m it => incr m (catOf it) it.price) m).find?
        (fun e => e.1 == cat)
      = m.find? (fun e => e.1 == cat) := by
  induction items generalizing m with
  | nil => simp
  | cons it its ih =>
      simp only [List.foldl_cons]
      rw [ih _ fun x hx => h x (List.mem_cons_of_mem it hx),
        find?_incr_ne m (catOf it) it.price cat (h it (List.mem_cons_self it its))]

/-- C3 (amended): every emitted `difference` is non-negative; `isHigher` is
true exactly when the owner's total exceeds the peer average by at least one
half (since `isHigher` tests the rounded difference), so it implies strict
excess but an excess below 0.5 is not flagged; and when the owner's total
equals the peer average the entry is `difference = 0, isHigher = false`. -/
theorem spec_C3_comparison_flags (u a : List Receipt) (e : CompEntry)
    (he : e ∈ comparisonSummary u a) :
    0 ≤ e.difference ∧
    (e.isHigher = true ↔
      1 / 2 ≤ lookupQ (userTotalsOf u) e.category
        - lookupQ (averagesOf a) e.category) ∧
    (lookupQ (userTotalsOf u) e.category = lookupQ (averagesOf a) e.category →
      e.difference = 0 ∧ e.isHigher = false) ∧
    (e.isHigher = true →
      lookupQ (averagesOf a) e.category < lookupQ (userTotalsOf u) e.category) := by
  simp only [comparisonSummary, List.mem_map] at he
  obtain ⟨cat, hcat, rfl⟩ := he
  dsimp only
  refine ⟨abs_nonneg _, ?_, ?_, ?_⟩
  · rw [decide_eq_true_eq]
    exact jsRoundZ_pos_iff _
  · intro heq
    have h0 : lookupQ (userTotalsOf u) cat - lookupQ (averagesOf a) cat = 0 :=
      sub_eq_zero.2 heq
    rw [h0, jsRoundZ_zero]
    simp
  · intro hh
    have h1 : 1 / 2
        ≤ lookupQ (userTotalsOf u) cat - lookupQ (averagesOf a) cat :=
      (jsRoundZ_pos_iff _).1 (of_decide_eq_true hh)
    linarith

/-- A receipt used as both the owner's and the whole population's single
record: owner total and peer average are both 10. -/
def receiptC3 : Receipt :=
  { googleId := "g1", receiptId := "r1", vendor := "v",
    items := [{ itemId := "i1", name := "n", category := some "Food", price := 10 }] }

/-- C3 witness: with one owner whose Food total is 10 the peer average is
10, and the theorem's equal-case conclusion gives `difference = 0` and
`isHigher = false`. -/
theorem spec_C3_comparison_flags_witness :
    (CompEntry.mk "Food" 0 false).difference = 0 ∧
    (CompEntry.mk "Food" 0 false).isHigher = false := by
  have hmem : CompEntry.mk "Food" 0 false
      ∈ comparisonSummary [receiptC3] [receiptC3] := by
    have hval : comparisonSummary [receiptC3] [receiptC3]
        = [CompEntry.mk "Food" 0 false] := by
      simp +decide [comparisonSummary, userTotalsOf, averagesOf, allTotalsOf,
        usersByCategoryOf, incr, addUserCat, lookupQ, usersAt, catOf, setAdd,
        insertOrderDedup, jsRoundZ, receiptC3] <;>
      norm_num
    rw [hval]
    exact List.mem_singleton_self _
  refine (spec_C3_comparison_flags [receiptC3] [receiptC3]
    (CompEntry.mk "Food" 0 false) hmem).2.2.1 ?_
  simp +decide [userTotalsOf, averagesOf, allTotalsOf, usersByCategoryOf,
    incr, addUserCat, lookupQ, usersAt, catOf, receiptC3]

/-- A Food line item of price 100.3. -/
def itemC3a : Item :=
  { itemId := "i", name := "n", category := some "Food", price := 1003 / 10 }

/-- A Food line item of price 99.7. -/
def itemC3b : Item :=
  { itemId := "i", name := "n", category := some "Food", price := 997 / 10 }

/-- The owner's single receipt: Food 100.3. -/
def receiptC3a : Receipt :=
  { googleId := "g1", receiptId := "ra", vendor := "v", items := [itemC3a] }

/-- A second owner's receipt: Food 99.7, making the peer average 100. -/
def receiptC3b : Receipt :=
  { googleId := "g2", receiptId := "rb", vendor := "v", items := [itemC3b] }

/-- C3, counterexample to the claim as stated: the owner's Food total 100.3
strictly exceeds the peer average 100, yet the emitted entry is
`difference = 0, isHigher = false` because `Math.round(0.3) = 0` — so
`isHigher` is not equivalent to strict excess. -/
theorem spec_C3_counterexample :
    comparisonSummary [receiptC3a] [receiptC3a, receiptC3b]
        = [CompEntry.mk "Food" 0 false] ∧
    lookupQ (averagesOf [receiptC3a, receiptC3b]) "Food"
      < lookupQ (userTotalsOf [receiptC3a]) "Food" := by
  constructor
  · simp +decide [comparisonSummary, userTotalsOf, averagesOf, allTotalsOf,
      usersByCategoryOf, incr, addUserCat, lookupQ, usersAt, catOf, setAdd,
      insertOrderDedup, jsRoundZ, receiptC3a, receiptC3b, itemC3a, itemC3b] <;>
    norm_num
  · simp +decide [userTotalsOf, averagesOf, allTotalsOf, usersByCategoryOf,
      incr, addUserCat, lookupQ, usersAt, catOf, setAdd, receiptC3a, receiptC3b,
      itemC3a, itemC3b] <;>
    norm_num

/-- C4: for every category present in the population totals, the emitted
peer average is the population total divided by the number of distinct
owners who contributed at least one line item in that category; and
appending a record with no item in that category leaves the category's
average unchanged (owners who never touched a category do not dilute it). -/
theorem spec_C4_peer_average (rs : List Receipt) (cat : String)
    (h : hasKey (allTotalsOf rs) cat = true) :
    lookupQ (averagesOf rs) cat
        = lookupQ (allTotalsOf rs) cat
          / ((contributingOwners rs cat).length : ℚ) ∧
    ∀ r : Receipt, (∀ it ∈ r.items, catOf it ≠ cat) →
      lookupQ (averagesOf (rs ++ [r])) cat = lookupQ (averagesOf rs) cat := by
  constructor
  · have hsome : ((allTotalsOf rs).find? (fun e => e.1 == cat)).isSome := by
      rw [List.find?_isSome]
      simpa [hasKey, List.any_eq_true] using h
    obtain ⟨e0, hfind⟩ := Option.isSome_iff_exists.1 hsome
    have he0 : e0.1 = cat := by
      simpa [beq_iff_eq] using List.find?_some hfind
    have hlook : lookupQ (allTotalsOf rs) cat = e0.2 := by
      simp [lookupQ, hfind]
    rw [lookupQ_averagesOf_some rs cat e0 hfind, he0, usersAt_usersByCategoryOf,
      hlook]
  · intro r hr
    have hAT : (allTotalsOf (rs ++ [r])).find? (fun e => e.1 == cat)
        = (allTotalsOf rs).find? (fun e => e.1 == cat) := by
      simp only [allTotalsOf, List.foldl_append, List.foldl_cons, List.foldl_nil]
      exact find?_foldItems_ne r.items _ cat hr
    have hany : r.items.any (fun it => catOf it == cat) = false := by
      rw [List.any_eq_false]
      intro it hit
      simpa using hr it hit
    have hUB : usersAt (usersByCategoryOf (rs ++ [r])) cat
        = usersAt (usersByCategoryOf rs) cat := by
      simp only [usersByCategoryOf, List.foldl_append, List.foldl_cons,
        List.foldl_nil]
      rw [usersAt_foldItems, hany]
      simp
    cases hfind2 : (allTotalsOf rs).find? (fun e => e.1 == cat) with
    | none =>
        rw [lookupQ_averagesOf_none _ _ (hAT.trans hfind2),
          lookupQ_averagesOf_none _ _ hfind2]
    | some e1 =>
        have he1 : e1.1 = cat := by
          simpa [beq_iff_eq] using List.find?_some hfind2
        rw [lookupQ_averagesOf_some _ _ e1 (hAT.trans hfind2),
          lookupQ_averagesOf_some _ _ e1 hfind2, he1, hUB]

/-- A single contributing owner with one Food item of price 10. -/
def receiptC4 : Receipt :=
  { googleId := "g1", receiptId := "r1", vendor := "v",
    items := [{ itemId := "i1", name := "n", category := some "Food", price := 10 }] }

/-- C4 witness: with one population record, Food's average is its total
divided by the one distinct contributing owner. -/
theorem spec_C4_peer_average_witness :
    lookupQ (averagesOf [receiptC4]) "Food"
      = lookupQ (allTotalsOf [receiptC4]) "Food"
        / ((contributingOwners [receiptC4] "Food").length : ℚ) :=
  (spec_C4_peer_average [receiptC4] "Food"
    (by simp +decide [hasKey, allTotalsOf, incr, catOf, receiptC4])).1

/-- C5: the comparison list has exactly one entry per category of the union
of the owner's keys and the averages' keys — its category list is that
duplicate-free union, a category is in it iff it is a key on either side —
and each entry is `{ category, difference = |round(owner − average)|,
isHigher = round(owner − average) > 0 }` with a missing side read as 0. -/
theorem spec_C5_comparison_entries (u a : List Receipt) :
    (comparisonSummary u a).map (fun e => e.category) = unionCategories u a ∧
    (unionCategories u a).Nodup ∧
    (∀ c : String,
      c ∈ unionCategories u a ↔
        (hasKey (userTotalsOf u) c = true ∨ hasKey (averagesOf a) c = true)) ∧
    comparisonSummary u a
      = (unionCategories u a).map (fun cat =>
          { category := cat,
            difference :=
              |jsRoundZ (lookupQ (userTotalsOf u) cat
                - lookupQ (averagesOf a) cat)|,
            isHigher :=
              decide (0 < jsRoundZ (lookupQ (userTotalsOf u) cat
                - lookupQ (averagesOf a) cat)) }) := by
  refine ⟨?_, nodup_insertOrderDedup _, ?_, rfl⟩
  · simp only [comparisonSummary, unionCategories, List.map_map]
    exact (List.map_congr_left fun c hc => rfl).trans (List.map_id _)
  · intro c
    rw [unionCategories, mem_insertOrderDedup, List.mem_append,
      hasKey_iff_mem_keys, hasKey_iff_mem_keys]

end ReceiptMe
